import Mathlib

/-!
# A verification development for `broadcast.go`

The package has one stateful engine, `Broadcaster`, made of two loops:

* `pipe` pulls values out of a `Receiver` and hands each one to the control loop over the
  channel `msgs`; on `ok = false` it closes the channel `quit` and returns;
* `run` owns the map `ls` of registered `Sender`s and repeatedly takes one event in a `select`
  over the channels `register`, `unregister`, `msgs` and `quit`.

Two embeddings are given.

* The *sequential* embedding (`Broadcaster.pipe`, `Broadcaster.run`) reads each loop as a function
  of the sequence of results / events it is fed.
* The *interleaved* embedding (`Broadcaster.step`, `Broadcaster.exec`) keeps a program counter for
  each goroutine and lets them move one at a time; every channel is unbuffered, so a channel
  operation is one joint move of its two ends.

Modelling conventions.

* `Send` is an effect that returns, and every call is recorded in a trace as the pair `(s, m)`.
* In `select`, `runFrom` and `step` a `Sender` is a value whose dynamic type is comparable and
  which is equal to itself, and the map `ls : map[Sender]struct{}` is the finite set of its
  keys.  What the map does on other interface values (a panic for a key that cannot be hashed,
  one more entry for a key that is not equal to itself) is in `selectKeyed` and `runKeyed`,
  and the claims about membership are settled there.
* Go leaves the iteration order of `range ls` open, and it may differ from one loop to the next.
  The sequential embedding takes it from a `RangeOrder`, which gives, for the `n`-th range loop
  and the key set at hand, an enumeration of the keys without repetition.  The interleaved
  embedding takes it from the label of the move.
-/

namespace Broadcaster

/-! ## Sequential embedding -/

/-- The result of the `k`-th call of `Receive` on a `Receiver`: the value and the flag `ok`. -/
abbrev Receiver (Msg : Type) := Nat → Msg × Bool

/-- What `pipe` does, in order. -/
inductive PipeAct (Msg : Type)
  /-- One call `input.Receive()`. -/
  | receive (m : Msg) (ok : Bool)
  /-- The channel send `b.msgs <- m`, completed. -/
  | forward (m : Msg)
  /-- The statement `close(b.quit)`. -/
  | closeQuit
deriving DecidableEq, Repr

/-- The actions of `pipe` and whether it has reached its `return`. -/
structure PipeRun (Msg : Type) where
  actions : List (PipeAct Msg)
  returned : Bool
deriving DecidableEq, Repr

/-- The loop of `pipe`, started at its `k`-th call of `Receive`, for at most `fuel` rounds.
Each round calls `Receive`; on `ok = false` it closes `quit` and returns, otherwise it sends the
value on `msgs` and goes round again. -/
def pipeFrom {Msg : Type} (input : Receiver Msg) : Nat → Nat → PipeRun Msg
  | 0, _ => ⟨[], false⟩
  | fuel + 1, k =>
    if (input k).2 = false then
      ⟨[PipeAct.receive (input k).1 false, PipeAct.closeQuit], true⟩
    else
      let r := pipeFrom input fuel (k + 1)
      ⟨PipeAct.receive (input k).1 true :: PipeAct.forward (input k).1 :: r.actions, r.returned⟩

/-- The method `pipe`, for at most `fuel` rounds of its loop. -/
def pipe {Msg : Type} (input : Receiver Msg) (fuel : Nat) : PipeRun Msg :=
  pipeFrom input fuel 0

/-- The values sent on `msgs`, in order. -/
def forwarded {Msg : Type} : List (PipeAct Msg) → List Msg
  | [] => []
  | PipeAct.forward m :: as => m :: forwarded as
  | _ :: as => forwarded as

/-- The number of calls of `Receive`. -/
def receiveCalls {Msg : Type} : List (PipeAct Msg) → Nat
  | [] => 0
  | PipeAct.receive _ _ :: as => receiveCalls as + 1
  | _ :: as => receiveCalls as

/-- The number of times `quit` is closed. -/
def quitSignals {Msg : Type} : List (PipeAct Msg) → Nat
  | [] => 0
  | PipeAct.closeQuit :: as => quitSignals as + 1
  | _ :: as => quitSignals as

/-- The actions expected of `pipe`, from its `k`-th call of `Receive` on, on a `Receiver` that
gives `n` more values and then `ok = false`: each value is received and forwarded, then the
last result is received and `quit` is closed. -/
def relayTrace {Msg : Type} (input : Receiver Msg) (k n : Nat) : List (PipeAct Msg) :=
  ((List.range n).flatMap fun i =>
      [PipeAct.receive (input (k + i)).1 true, PipeAct.forward (input (k + i)).1]) ++
    [PipeAct.receive (input (k + n)).1 false, PipeAct.closeQuit]

/-- The four cases of the `select` in `run`: what the control loop takes next. -/
inductive Event (Sender Msg : Type)
  /-- The case `s := <-b.register`. -/
  | register (s : Sender)
  /-- The case `s := <-b.unregister`. -/
  | unregister (s : Sender)
  /-- The case `m := <-b.msgs`. -/
  | msgs (m : Msg)
  /-- The case `<-b.quit`. -/
  | quit
deriving DecidableEq, Repr

/-- An enumeration of the keys of the map, each key once. -/
def IsRangeOf {Sender : Type} (ls : Finset Sender) (l : List Sender) : Prop :=
  l.Nodup ∧ ∀ s, s ∈ l ↔ s ∈ ls

instance {Sender : Type} [DecidableEq Sender] (ls : Finset Sender) (l : List Sender) :
    Decidable (IsRangeOf ls l) :=
  decidable_of_iff (l.Nodup ∧ l.toFinset = ls) (by
    unfold IsRangeOf
    constructor
    · rintro ⟨h, rfl⟩
      exact ⟨h, fun s => by simp⟩
    · rintro ⟨h, hm⟩
      exact ⟨h, by ext s; simp [hm]⟩)

/-- The iteration orders of `range ls`: `order n ls` is the order in which the `n`-th range loop
of the control loop visits the keys of `ls`. -/
structure RangeOrder (Sender : Type) where
  order : Nat → Finset Sender → List Sender
  isRange : ∀ n ls, IsRangeOf ls (order n ls)

/-- The variables of `run` between two rounds of its loop, with the trace of `Send` calls. -/
structure LoopState (Sender Msg : Type) where
  /-- The keys of the map `ls`. -/
  ls : Finset Sender
  /-- The `Send` calls made so far, oldest first. -/
  sends : List (Sender × Msg)
  /-- The number of range loops run so far. -/
  ranges : Nat

/-- The calls `s.Send(m)` of one loop `for s := range ls`. -/
def rangeSend {Sender Msg : Type} (o : RangeOrder Sender) (st : LoopState Sender Msg) (m : Msg) :
    List (Sender × Msg) :=
  (o.order st.ranges st.ls).map fun s => (s, m)

/-- One round of the loop of `run` on the event taken by the `select`, for senders that can be
hashed and are equal to themselves (see `selectKeyed` for the others); `none` is the `return`
of the case `<-b.quit`. -/
def select {Sender Msg : Type} [DecidableEq Sender] (o : RangeOrder Sender)
    (st : LoopState Sender Msg) : Event Sender Msg → Option (LoopState Sender Msg)
  | Event.register s => some { st with ls := insert s st.ls }
  | Event.unregister s => some { st with ls := st.ls.erase s }
  | Event.msgs m =>
    some { st with sends := st.sends ++ rangeSend o st m, ranges := st.ranges + 1 }
  | Event.quit => none

/-- The loop of `run` from the state `st` on the events its `select` takes, in order.  The
result is the state reached and whether the loop has returned; events after the `return` are
not looked at. -/
def runFrom {Sender Msg : Type} [DecidableEq Sender] (o : RangeOrder Sender) :
    LoopState Sender Msg → List (Event Sender Msg) → LoopState Sender Msg × Bool
  | st, [] => (st, false)
  | st, e :: es =>
    match select o st e with
    | none => (st, true)
    | some st' => runFrom o st' es

/-- The state `run` starts its loop in: `ls := make(map[Sender]struct{})`. -/
def start (Sender Msg : Type) : LoopState Sender Msg := ⟨∅, [], 0⟩

/-- The method `run` on the events its `select` takes, in order. -/
def run {Sender Msg : Type} [DecidableEq Sender] (o : RangeOrder Sender)
    (es : List (Event Sender Msg)) : LoopState Sender Msg × Bool :=
  runFrom o (start Sender Msg) es

/-- The values passed to `Send` on the sender `s`, in order. -/
def sentTo {Sender Msg : Type} [DecidableEq Sender] (s : Sender) (tr : List (Sender × Msg)) :
    List Msg :=
  (tr.filter fun c => decide (c.1 = s)).map Prod.snd

/-- The last membership event for `s`: `some true` for `register s`, `some false` for
`unregister s`, `none` when there is none. -/
def lastMembership {Sender Msg : Type} [DecidableEq Sender] (s : Sender) :
    List (Event Sender Msg) → Option Bool
  | [] => none
  | e :: es =>
    match lastMembership s es with
    | some b => some b
    | none =>
      match e with
      | Event.register t => if t = s then some true else none
      | Event.unregister t => if t = s then some false else none
      | _ => none

/-- The iteration order that visits the keys of a set of numbers in increasing order. -/
def sortedOrder : RangeOrder Nat where
  order := fun _ ls => ls.sort (fun a b => a ≤ b)
  isRange := fun _ ls => ⟨Finset.sort_nodup _ ls, fun s => by simp⟩

/-! ## Interleaved embedding -/

/-- Where the goroutine started by `go b.pipe(r)` stands. -/
inductive PipePC (Msg : Type)
  /-- At the call `input.Receive()`. -/
  | receiving
  /-- Blocked in the channel send `b.msgs <- m`. -/
  | sending (m : Msg)
  /-- `Receive` has returned `ok = false`; at the statement `close(b.quit)`. -/
  | closing
  /-- Past the `return`. -/
  | returned
deriving DecidableEq, Repr

/-- Where the goroutine started by `go b.run()` stands. -/
inductive RunPC (Sender Msg : Type)
  /-- Waiting in the `select`. -/
  | selecting
  /-- In the loop `for s := range ls` of the case `m := <-b.msgs`; `rest` holds the keys still
  to be visited, in the order of the iteration. -/
  | ranging (m : Msg) (rest : List Sender)
  /-- Past the `return` of the case `<-b.quit`. -/
  | returned
deriving DecidableEq, Repr

/-- A call of one of the two exported methods by a client goroutine. -/
inductive Call (Sender : Type)
  /-- The call `b.Register(s)`, whose body is `b.register <- s`. -/
  | Register (s : Sender)
  /-- The call `b.Unregister(s)`, whose body is `b.unregister <- s`. -/
  | Unregister (s : Sender)
deriving DecidableEq, Repr

/-- The statement the control loop runs for an accepted call: `ls[s] = struct{}{}` for
`Register`, `delete(ls, s)` for `Unregister`, for senders that can be hashed and are equal to
themselves (see `mapassign` and `mapdelete` for the others). -/
def Call.apply {Sender : Type} [DecidableEq Sender] (ls : Finset Sender) :
    Call Sender → Finset Sender
  | Call.Register s => insert s ls
  | Call.Unregister s => ls.erase s

/-- A `Broadcaster` made by `New` together with its two goroutines and its clients. -/
structure System (Sender Msg : Type) where
  /-- The goroutine of `pipe`. -/
  pipe : PipePC Msg
  /-- The goroutine of `run`. -/
  run : RunPC Sender Msg
  /-- The keys of the map `ls` of `run`. -/
  ls : Finset Sender
  /-- Whether the channel `quit` is closed. -/
  quitClosed : Bool
  /-- The calls of `Register` and `Unregister` blocked in their channel send. -/
  blocked : List (Call Sender)
  /-- The calls of `Register` and `Unregister` that have returned. -/
  completed : List (Call Sender)
  /-- The `Send` calls made so far, oldest first. -/
  sends : List (Sender × Msg)
deriving DecidableEq

/-- One move of one goroutine (of two, for a channel operation). -/
inductive Move (Sender Msg : Type)
  /-- A client calls `Register` or `Unregister` and reaches the channel send. -/
  | call (c : Call Sender)
  /-- The `select` takes the case `s := <-b.register` or `s := <-b.unregister` from the blocked
  call `c`, which returns, and runs the statement of the case. -/
  | accept (c : Call Sender)
  /-- The call `input.Receive()` returns `(m, ok)`. -/
  | receive (m : Msg) (ok : Bool)
  /-- The statement `close(b.quit)` followed by the `return` of `pipe`. -/
  | closeQuit
  /-- The `select` takes the case `m := <-b.msgs` from `pipe` and enters the range loop, which
  will visit the keys in the given order. -/
  | takeMsg (order : List Sender)
  /-- The next call `s.Send(m)` of the range loop. -/
  | send
  /-- The range loop has visited every key; back to the `select`. -/
  | endRange
  /-- The `select` takes the case `<-b.quit` and `run` returns. -/
  | takeQuit
deriving DecidableEq, Repr

/-- The effect of a move, `none` when the move is not possible in the state. -/
def step {Sender Msg : Type} [DecidableEq Sender] (st : System Sender Msg) :
    Move Sender Msg → Option (System Sender Msg)
  | Move.call c => some { st with blocked := st.blocked ++ [c] }
  | Move.accept c =>
    match st.run with
    | RunPC.selecting =>
      if c ∈ st.blocked then
        some { st with
          ls := c.apply st.ls, blocked := st.blocked.erase c, completed := st.completed ++ [c] }
      else none
    | _ => none
  | Move.receive m ok =>
    match st.pipe with
    | PipePC.receiving => some { st with pipe := if ok then PipePC.sending m else PipePC.closing }
    | _ => none
  | Move.closeQuit =>
    match st.pipe with
    | PipePC.closing => some { st with pipe := PipePC.returned, quitClosed := true }
    | _ => none
  | Move.takeMsg order =>
    match st.run, st.pipe with
    | RunPC.selecting, PipePC.sending m =>
      if IsRangeOf st.ls order then
        some { st with run := RunPC.ranging m order, pipe := PipePC.receiving }
      else none
    | _, _ => none
  | Move.send =>
    match st.run with
    | RunPC.ranging m (s :: rest) =>
      some { st with run := RunPC.ranging m rest, sends := st.sends ++ [(s, m)] }
    | _ => none
  | Move.endRange =>
    match st.run with
    | RunPC.ranging _ [] => some { st with run := RunPC.selecting }
    | _ => none
  | Move.takeQuit =>
    match st.run with
    | RunPC.selecting => if st.quitClosed = true then some { st with run := RunPC.returned } else none
    | _ => none

/-- The moves of a list made one after the other, `none` when one of them is not possible. -/
def exec {Sender Msg : Type} [DecidableEq Sender] (st : System Sender Msg) :
    List (Move Sender Msg) → Option (System Sender Msg)
  | [] => some st
  | mv :: mvs =>
    match step st mv with
    | none => none
    | some st' => exec st' mvs

/-- The system right after `New`: both goroutines started, the four channels open and empty,
the map `ls` empty, no call made. -/
def New (Sender Msg : Type) : System Sender Msg :=
  ⟨PipePC.receiving, RunPC.selecting, ∅, false, [], [], []⟩

/-- The `Send` calls the range loop under way has still to make. -/
def pendingSends {Sender Msg : Type} (st : System Sender Msg) : List (Sender × Msg) :=
  match st.run with
  | RunPC.ranging m rest => rest.map fun s => (s, m)
  | _ => []

/-- The calls of `Register` and `Unregister` made by clients during a list of moves. -/
def callsMade {Sender Msg : Type} : List (Move Sender Msg) → List (Call Sender)
  | [] => []
  | Move.call c :: mvs => c :: callsMade mvs
  | _ :: mvs => callsMade mvs

/-! ## The map `ls` on arbitrary interface values

`select` and `Call.apply` above read `ls[s] = struct{}{}` and `delete(ls, s)` as insertion into
and removal from a set, which is what they are for a `Sender` whose dynamic type is comparable
and whose value is equal to itself.  The type `Sender` is an interface, so the control loop can
be handed other values too, and on those the Go runtime behaves differently:

* a `Sender` whose dynamic type is not comparable (a func type with a `Send` method, a struct
  holding a slice) cannot be hashed: both statements panic, and `run` has no `recover`;
* a `Sender` that is not `==` to itself (its value holds a floating-point NaN) never matches a
  key of the map: `ls[s] = struct{}{}` adds one more entry each time, `delete(ls, s)` finds
  nothing to remove.

The definitions of this section follow the runtime on every `Sender`.  The map is the list of
its entries (the position in the list has no meaning: the order of a range loop comes from an
`EntryOrder`), and `runKeyed_of_lawful` shows that on senders of the first sort this loop and
`runFrom` do the same. -/

/-- How the Go runtime treats a `Sender` used as a key of the map `ls`. -/
structure KeyKind (Sender : Type) where
  /-- Whether the dynamic type of the sender is comparable, so that the key can be hashed. -/
  hashable : Sender → Bool
  /-- Whether the sender is `==` to itself (false when its value holds a NaN).  Two senders
  that are different values of the model are never `==`. -/
  selfEqual : Sender → Bool

/-- The statement `ls[s] = struct{}{}` on the entries of the map: a panic (`none`) when `s`
cannot be hashed; no change when an entry `==` to `s` is there; one more entry otherwise. -/
def mapassign {Sender : Type} [DecidableEq Sender] (k : KeyKind Sender) (ls : List Sender)
    (s : Sender) : Option (List Sender) :=
  if k.hashable s = true then
    if k.selfEqual s = true ∧ s ∈ ls then some ls else some (ls ++ [s])
  else none

/-- The statement `delete(ls, s)` on the entries of the map: a panic (`none`) when `s` cannot
be hashed, also on an empty map; the entry `==` to `s` removed when there is one; no change
otherwise. -/
def mapdelete {Sender : Type} [DecidableEq Sender] (k : KeyKind Sender) (ls : List Sender)
    (s : Sender) : Option (List Sender) :=
  if k.hashable s = true then
    if k.selfEqual s = true then some (ls.erase s) else some ls
  else none

/-- The iteration orders of `range ls` on the entries of the map: `order n ls` is the order in
which the `n`-th range loop visits the entries `ls`, each entry once. -/
structure EntryOrder (Sender : Type) where
  order : Nat → List Sender → List Sender
  isPerm : ∀ n ls, (order n ls).Perm ls

/-- The variables of `run` between two rounds of its loop, the map given by its entries. -/
structure KeyedState (Sender Msg : Type) where
  /-- The entries of the map `ls`. -/
  ls : List Sender
  /-- The `Send` calls made so far, oldest first. -/
  sends : List (Sender × Msg)
  /-- The number of range loops run so far. -/
  ranges : Nat
deriving DecidableEq, Repr

/-- How one round of the loop of `run` ends. -/
inductive Round (Sender Msg : Type)
  /-- The round is over and the loop goes round again. -/
  | next (st : KeyedState Sender Msg)
  /-- The `return` of the case `<-b.quit`. -/
  | returned
  /-- A runtime panic in `ls[s] = struct{}{}` or in `delete(ls, s)`. -/
  | panicked

/-- Where the loop of `run` stands after the events it was given. -/
inductive LoopStatus
  /-- In the loop, waiting in the `select`. -/
  | running
  /-- Past the `return` of the case `<-b.quit`. -/
  | returned
  /-- Dead of a runtime panic, which nothing recovers. -/
  | panicked
deriving DecidableEq, Repr

/-- One round of the loop of `run` on the event taken by the `select`, on arbitrary senders. -/
def selectKeyed {Sender Msg : Type} [DecidableEq Sender] (k : KeyKind Sender)
    (e : EntryOrder Sender) (st : KeyedState Sender Msg) :
    Event Sender Msg → Round Sender Msg
  | Event.register s =>
    match mapassign k st.ls s with
    | some ls => Round.next { st with ls := ls }
    | none => Round.panicked
  | Event.unregister s =>
    match mapdelete k st.ls s with
    | some ls => Round.next { st with ls := ls }
    | none => Round.panicked
  | Event.msgs m =>
    Round.next { st with
      sends := st.sends ++ (e.order st.ranges st.ls).map (fun s => (s, m)),
      ranges := st.ranges + 1 }
  | Event.quit => Round.returned

/-- The loop of `run` from the state `st` on the events its `select` takes, in order, on
arbitrary senders.  Events after the `return` or after a panic are not looked at. -/
def runKeyed {Sender Msg : Type} [DecidableEq Sender] (k : KeyKind Sender)
    (e : EntryOrder Sender) :
    KeyedState Sender Msg → List (Event Sender Msg) → KeyedState Sender Msg × LoopStatus
  | st, [] => (st, LoopStatus.running)
  | st, ev :: es =>
    match selectKeyed k e st ev with
    | Round.next st' => runKeyed k e st' es
    | Round.returned => (st, LoopStatus.returned)
    | Round.panicked => (st, LoopStatus.panicked)

/-- The state `run` starts its loop in, the map given by its entries. -/
def startKeyed (Sender Msg : Type) : KeyedState Sender Msg := ⟨[], [], 0⟩

/-- The order of a range loop on the entries that a `RangeOrder` gives on the key set, for a
map whose entries are all different. -/
def EntryOrder.ofRangeOrder {Sender : Type} [DecidableEq Sender] (o : RangeOrder Sender) :
    EntryOrder Sender where
  order := fun n ls => if ls.Nodup then o.order n ls.toFinset else ls
  isPerm := fun n ls => by
    by_cases h : ls.Nodup
    · simp only [if_pos h]
      have hr := o.isRange n ls.toFinset
      exact (List.perm_ext_iff_of_nodup hr.1 h).mpr (fun s => by rw [hr.2 s]; simp)
    · simp only [if_neg h, List.Perm.refl]

/-- The range order that visits the entries in the order of the list. -/
def listOrder (Sender : Type) : EntryOrder Sender where
  order := fun _ ls => ls
  isPerm := fun _ ls => List.Perm.refl ls

/-- Three sorts of value that implement `Sender`. -/
inductive DemoSender
  /-- A pointer to a struct with a `Send` method: hashed and compared by address. -/
  | ptr (n : Nat)
  /-- A value of a type `type F float64` with a `Send` method, holding NaN: it can be hashed
  and is not `==` to itself. -/
  | nan
  /-- A value of a type `type G func(interface{})` with a `Send` method: it cannot be hashed. -/
  | fn
deriving DecidableEq, Repr

/-- The treatment of the three sorts of `DemoSender` by the Go runtime. -/
def demoKeys : KeyKind DemoSender where
  hashable := fun s => decide (s ≠ DemoSender.fn)
  selfEqual := fun s => decide (s ≠ DemoSender.nan)

/-! ## Concrete inputs -/

/-- A `Receiver` that gives the values `10` and `11` and then `ok = false`. -/
def twoValues : Receiver Nat := fun k => (k + 10, decide (k < 2))

/-- A state of the control loop with the senders `1` and `2` registered and no call made. -/
def twoSenders : LoopState Nat Nat := ⟨{1, 2}, [], 0⟩

/-- The system after `Receive` has returned `ok = false` at once, `pipe` has closed `quit` and
`run` has taken it: the state `exec (New Nat Nat) [receive 0 false, closeQuit, takeQuit]`. -/
def shutDown : System Nat Nat :=
  ⟨PipePC.returned, RunPC.returned, ∅, true, [], [], []⟩

/-- The system after senders `1` and `2` were registered (in that order), the value `7` was
taken, `Send(7)` was called on sender `1` and `Receive` then returned `ok = false`: the range
loop has still to call `Send(7)` on sender `2`. -/
def midDelivery : System Nat Nat :=
  ⟨PipePC.closing, RunPC.ranging 7 [2], insert 2 (insert 1 ∅), false, [],
    [Call.Register 1, Call.Register 2], [(1, 7)]⟩

/-- The system `midDelivery` after the range loop has finished, `pipe` has closed `quit` and
`run` has taken it. -/
def afterDelivery : System Nat Nat :=
  ⟨PipePC.returned, RunPC.returned, insert 2 (insert 1 ∅), true, [],
    [Call.Register 1, Call.Register 2], [(1, 7), (2, 7)]⟩


/-! ## Lemmas -/

section Lemmas
variable {Sender Msg : Type} [DecidableEq Sender]

theorem sentTo_append (s : Sender) (a b : List (Sender × Msg)) :
    sentTo s (a ++ b) = sentTo s a ++ sentTo s b := by
  simp [sentTo]

theorem sentTo_map_pair (s : Sender) (m : Msg) (l : List Sender) (hn : l.Nodup) :
    sentTo s (l.map fun t => (t, m)) = if s ∈ l then [m] else [] := by
  induction l with
  | nil => simp [sentTo]
  | cons t l ih =>
    have hn' := List.nodup_cons.mp hn
    have ih' := ih hn'.2
    by_cases hts : t = s
    · subst hts
      have : sentTo t (l.map fun u => (u, m)) = [] := by simpa [hn'.1] using ih'
      simp only [sentTo] at this ⊢
      simp [List.filter_cons, this]
    · have hst : ¬ s = t := fun h => hts h.symm
      simp only [sentTo] at ih' ⊢
      simp [List.filter_cons, hts, hst, ih']

theorem sentTo_rangeSend (o : RangeOrder Sender) (st : LoopState Sender Msg) (s : Sender)
    (m : Msg) : sentTo s (rangeSend o st m) = if s ∈ st.ls then [m] else [] := by
  have h := o.isRange st.ranges st.ls
  unfold rangeSend
  rw [sentTo_map_pair s m _ h.1]
  simp [h.2 s]

theorem runFrom_msgs (o : RangeOrder Sender) (s : Sender) (vs : List Msg) :
    ∀ st : LoopState Sender Msg,
      (runFrom o st (vs.map Event.msgs)).2 = false ∧
      (runFrom o st (vs.map Event.msgs)).1.ls = st.ls ∧
      sentTo s (runFrom o st (vs.map Event.msgs)).1.sends =
        sentTo s st.sends ++ (if s ∈ st.ls then vs else []) := by
  induction vs with
  | nil => intro st; simp [runFrom]
  | cons v vs ih =>
    intro st
    have h := ih { st with sends := st.sends ++ rangeSend o st v, ranges := st.ranges + 1 }
    simp only [List.map_cons, runFrom, select]
    refine ⟨h.1, h.2.1, ?_⟩
    rw [h.2.2, sentTo_append, sentTo_rangeSend]
    by_cases hs : s ∈ st.ls <;> simp [hs]

theorem forwarded_pipeFrom (input : Receiver Msg) (n : Nat) :
    ∀ k, (∀ i, i < n → (input (k + i)).2 = true) →
      forwarded (pipeFrom input n k).actions = (List.range n).map fun i => (input (k + i)).1 := by
  induction n with
  | zero => intro k _; simp [pipeFrom, forwarded]
  | succ n ih =>
    intro k h
    have h0 : (input k).2 = true := by simpa using h 0 (Nat.succ_pos n)
    have ih' := ih (k + 1) (fun i hi => by
      have := h (i + 1) (Nat.succ_lt_succ hi)
      rwa [show k + 1 + i = k + (i + 1) by omega])
    simp only [pipeFrom, h0, Bool.true_eq_false, if_false, forwarded, ih', List.range_succ_eq_map,
      List.map_cons, List.map_map, Nat.add_zero]
    congr 1
    apply List.map_congr_left
    intro i _
    simp [show k + 1 + i = k + (i + 1) by omega]

end Lemmas


section Lemmas
variable {Sender Msg : Type} [DecidableEq Sender]

theorem runFrom_append_of_running (o : RangeOrder Sender) (es es' : List (Event Sender Msg)) :
    ∀ st : LoopState Sender Msg, (runFrom o st es).2 = false →
      runFrom o st (es ++ es') = runFrom o (runFrom o st es).1 es' := by
  induction es with
  | nil => intro st _; simp [runFrom]
  | cons e es ih =>
    intro st h
    cases e <;> simp only [List.cons_append, runFrom, select] at h ⊢
    · exact ih _ h
    · exact ih _ h
    · exact ih _ h
    · simp at h

theorem runFrom_append_of_returned (o : RangeOrder Sender) (es es' : List (Event Sender Msg)) :
    ∀ st : LoopState Sender Msg, (runFrom o st es).2 = true →
      runFrom o st (es ++ es') = runFrom o st es := by
  induction es with
  | nil => intro st h; simp [runFrom] at h
  | cons e es ih =>
    intro st h
    cases e <;> simp only [List.cons_append, runFrom, select] at h ⊢
    · exact ih _ h
    · exact ih _ h
    · exact ih _ h

theorem runFrom_running_of_no_quit (o : RangeOrder Sender) (es : List (Event Sender Msg)) :
    ∀ st : LoopState Sender Msg, Event.quit ∉ es → (runFrom o st es).2 = false := by
  induction es with
  | nil => intro st _; simp [runFrom]
  | cons e es ih =>
    intro st h
    have h' : Event.quit ∉ es := fun hm => h (List.mem_cons_of_mem _ hm)
    cases e <;> simp only [runFrom, select]
    · exact ih _ h'
    · exact ih _ h'
    · exact ih _ h'
    · exact absurd (List.mem_cons_self _ _) h

theorem runFrom_sends_extend (o : RangeOrder Sender) (es : List (Event Sender Msg)) :
    ∀ st : LoopState Sender Msg, ∃ later, (runFrom o st es).1.sends = st.sends ++ later := by
  induction es with
  | nil => intro st; exact ⟨[], by simp [runFrom]⟩
  | cons e es ih =>
    intro st
    cases e with
    | register t => simpa only [runFrom, select] using ih _
    | unregister t => simpa only [runFrom, select] using ih _
    | msgs m =>
      obtain ⟨later, h⟩ :=
        ih { st with sends := st.sends ++ rangeSend o st m, ranges := st.ranges + 1 }
      exact ⟨rangeSend o st m ++ later, by simp only [runFrom, select]; rw [h]; simp⟩
    | quit => exact ⟨[], by simp [runFrom, select]⟩

theorem mem_ls_runFrom (o : RangeOrder Sender) (s : Sender) (es : List (Event Sender Msg)) :
    ∀ st : LoopState Sender Msg, Event.quit ∉ es →
      (s ∈ (runFrom o st es).1.ls ↔
        lastMembership s es = some true ∨ (lastMembership s es = none ∧ s ∈ st.ls)) := by
  induction es with
  | nil => intro st _; simp [runFrom, lastMembership]
  | cons e es ih =>
    intro st h
    have h' : Event.quit ∉ es := fun hm => h (List.mem_cons_of_mem _ hm)
    cases e with
    | register t =>
      simp only [runFrom, select]
      rw [ih _ h']
      simp only [lastMembership]
      cases hl : lastMembership s es with
      | some b => simp
      | none =>
        by_cases hts : t = s
        · simp [hts]
        · have : ¬ s = t := fun h => hts h.symm
          simp [hts, this]
    | unregister t =>
      simp only [runFrom, select]
      rw [ih _ h']
      simp only [lastMembership]
      cases hl : lastMembership s es with
      | some b => simp
      | none =>
        by_cases hts : t = s
        · simp [hts]
        · have : ¬ s = t := fun h => hts h.symm
          simp [hts, this]
    | msgs m =>
      simp only [runFrom, select]
      rw [ih _ h']
      simp only [lastMembership]
      cases hl : lastMembership s es <;> simp
    | quit => exact absurd (List.mem_cons_self _ _) h

end Lemmas


section PipeLemmas
variable {Msg : Type}

theorem relayTrace_succ (input : Receiver Msg) (k n : Nat) :
    relayTrace input k (n + 1) =
      PipeAct.receive (input k).1 true :: PipeAct.forward (input k).1 ::
        relayTrace input (k + 1) n := by
  simp only [relayTrace, List.range_succ_eq_map, List.flatMap_cons, List.flatMap_map,
    Nat.add_zero, List.cons_append, List.nil_append, Function.comp_def, Nat.succ_eq_add_one]
  simp [show ∀ i, k + 1 + i = k + (i + 1) from fun i => by omega,
    show k + 1 + n = k + (n + 1) by omega]

theorem pipeFrom_exhausted (input : Receiver Msg) (n : Nat) :
    ∀ fuel k, (∀ i, i < n → (input (k + i)).2 = true) → (input (k + n)).2 = false → n < fuel →
      pipeFrom input fuel k = ⟨relayTrace input k n, true⟩ := by
  induction n with
  | zero =>
    intro fuel k _ hn hf
    obtain ⟨f, rfl⟩ : ∃ f, fuel = f + 1 := ⟨fuel - 1, by omega⟩
    have hn' : (input k).2 = false := by simpa using hn
    simp [pipeFrom, hn', relayTrace]
  | succ n ih =>
    intro fuel k h hn hf
    obtain ⟨f, rfl⟩ : ∃ f, fuel = f + 1 := ⟨fuel - 1, by omega⟩
    have h0 : (input k).2 = true := by simpa using h 0 (Nat.succ_pos n)
    have ih' := ih f (k + 1)
      (fun i hi => by
        have := h (i + 1) (Nat.succ_lt_succ hi)
        rwa [show k + 1 + i = k + (i + 1) by omega])
      (by rwa [show k + 1 + n = k + (n + 1) by omega]) (by omega)
    simp only [pipeFrom, h0, Bool.true_eq_false, if_false, ih', relayTrace_succ]

theorem forwarded_relayTrace (input : Receiver Msg) (n : Nat) :
    ∀ k, forwarded (relayTrace input k n) = (List.range n).map fun i => (input (k + i)).1 := by
  induction n with
  | zero => intro k; simp [relayTrace, forwarded]
  | succ n ih =>
    intro k
    rw [relayTrace_succ]
    simp only [forwarded, ih, List.range_succ_eq_map, List.map_cons, List.map_map, Nat.add_zero]
    congr 1
    apply List.map_congr_left
    intro i _
    simp [show k + 1 + i = k + (i + 1) by omega]

theorem receiveCalls_relayTrace (input : Receiver Msg) (n : Nat) :
    ∀ k, receiveCalls (relayTrace input k n) = n + 1 := by
  induction n with
  | zero => intro k; simp [relayTrace, receiveCalls]
  | succ n ih => intro k; rw [relayTrace_succ]; simp [receiveCalls, ih]

theorem quitSignals_relayTrace (input : Receiver Msg) (n : Nat) :
    ∀ k, quitSignals (relayTrace input k n) = 1 := by
  induction n with
  | zero => intro k; simp [relayTrace, quitSignals]
  | succ n ih => intro k; rw [relayTrace_succ]; simp [quitSignals, ih]

end PipeLemmas


section SystemLemmas
variable {Sender Msg : Type} [DecidableEq Sender]

theorem exec_append (a b : List (Move Sender Msg)) :
    ∀ st st2 : System Sender Msg, exec st (a ++ b) = some st2 ↔
      ∃ st1, exec st a = some st1 ∧ exec st1 b = some st2 := by
  induction a with
  | nil => intro st st2; simp [exec]
  | cons mv a ih =>
    intro st st2
    simp only [List.cons_append, exec]
    cases step st mv with
    | none => simp
    | some st' => simpa using ih st' st2

/-- One move of a system whose control loop has returned. -/
theorem step_of_returned (st st' : System Sender Msg) (mv : Move Sender Msg)
    (hr : st.run = RunPC.returned) (h : step st mv = some st') :
    st'.run = RunPC.returned ∧ st'.ls = st.ls ∧ st'.completed = st.completed ∧
      st'.sends = st.sends ∧ st'.blocked = st.blocked ++ callsMade [mv] ∧
      (∀ c, mv ≠ Move.accept c) ∧ mv ≠ Move.send := by
  obtain ⟨pipe, run, ls, quitClosed, blocked, completed, sends⟩ := st
  simp only at hr
  subst hr
  cases mv with
  | call c =>
    simp only [step, Option.some.injEq] at h
    subst h
    simp [callsMade]
  | accept c => simp [step] at h
  | receive m ok =>
    cases pipe <;> simp only [step, Option.some.injEq, reduceCtorEq] at h
    subst h
    simp [callsMade]
  | closeQuit =>
    cases pipe <;> simp only [step, Option.some.injEq, reduceCtorEq] at h
    subst h
    simp [callsMade]
  | takeMsg order => simp [step] at h
  | send => simp [step] at h
  | endRange => simp [step] at h
  | takeQuit => simp [step] at h

theorem exec_of_returned (mvs : List (Move Sender Msg)) :
    ∀ st st' : System Sender Msg, st.run = RunPC.returned → exec st mvs = some st' →
      st'.run = RunPC.returned ∧ st'.ls = st.ls ∧ st'.completed = st.completed ∧
        st'.sends = st.sends ∧ st'.blocked = st.blocked ++ callsMade mvs ∧
        (∀ c, Move.accept c ∉ mvs) ∧ Move.send ∉ mvs := by
  induction mvs with
  | nil =>
    intro st st' hr h
    simp only [exec, Option.some.injEq] at h
    subst h
    simp [hr, callsMade]
  | cons mv mvs ih =>
    intro st st' hr h
    simp only [exec] at h
    cases hs : step st mv with
    | none => simp [hs] at h
    | some st1 =>
      simp only [hs] at h
      obtain ⟨a1, a2, a3, a4, a5, a6, a7⟩ := step_of_returned st st1 mv hr hs
      obtain ⟨b1, b2, b3, b4, b5, b6, b7⟩ := ih st1 st' a1 h
      refine ⟨b1, b2.trans a2, b3.trans a3, b4.trans a4, ?_, ?_, ?_⟩
      · rw [b5, a5]
        cases mv <;> simp [callsMade]
      · intro c hc
        rcases List.mem_cons.mp hc with hc | hc
        · exact a6 c hc.symm
        · exact b6 c hc
      · intro hc
        rcases List.mem_cons.mp hc with hc | hc
        · exact a7 hc.symm
        · exact b7 hc

end SystemLemmas


section ExhaustedLemmas
variable {Sender Msg : Type} [DecidableEq Sender]

/-- One move of a system whose `Receive` has returned `ok = false`. -/
theorem step_of_exhausted (st st' : System Sender Msg) (mv : Move Sender Msg)
    (hp : st.pipe = PipePC.closing ∨ st.pipe = PipePC.returned) (h : step st mv = some st') :
    (st'.pipe = PipePC.closing ∨ st'.pipe = PipePC.returned) ∧
      (∀ order, mv ≠ Move.takeMsg order) ∧
      ∃ made, st'.sends = st.sends ++ made ∧ made ++ pendingSends st' = pendingSends st := by
  obtain ⟨pipe, run, ls, quitClosed, blocked, completed, sends⟩ := st
  simp only at hp
  cases mv with
  | call c =>
    simp only [step, Option.some.injEq] at h
    subst h
    exact ⟨hp, by simp, [], by simp [pendingSends]⟩
  | accept c =>
    cases run <;> simp only [step, reduceCtorEq] at h
    split at h
    · simp only [Option.some.injEq] at h
      subst h
      exact ⟨hp, by simp, [], by simp [pendingSends]⟩
    · simp at h
  | receive m ok =>
    rcases hp with hp | hp <;> subst hp <;> simp [step] at h
  | closeQuit =>
    cases pipe <;> simp only [step, Option.some.injEq, reduceCtorEq] at h
    subst h
    exact ⟨Or.inr rfl, by simp, [], by simp [pendingSends]⟩
  | takeMsg order =>
    rcases hp with hp | hp <;> subst hp <;> cases run <;> simp [step] at h
  | send =>
    cases run with
    | selecting => simp [step] at h
    | returned => simp [step] at h
    | ranging m rest =>
      cases rest with
      | nil => simp [step] at h
      | cons s rest =>
        simp only [step, Option.some.injEq] at h
        subst h
        exact ⟨hp, by simp, [(s, m)], by simp [pendingSends]⟩
  | endRange =>
    cases run with
    | selecting => simp [step] at h
    | returned => simp [step] at h
    | ranging m rest =>
      cases rest with
      | cons s rest => simp [step] at h
      | nil =>
        simp only [step, Option.some.injEq] at h
        subst h
        exact ⟨hp, by simp, [], by simp [pendingSends]⟩
  | takeQuit =>
    cases run <;> simp only [step, reduceCtorEq] at h
    split at h
    · simp only [Option.some.injEq] at h
      subst h
      exact ⟨hp, by simp, [], by simp [pendingSends]⟩
    · simp at h

theorem exec_of_exhausted (mvs : List (Move Sender Msg)) :
    ∀ st st' : System Sender Msg, (st.pipe = PipePC.closing ∨ st.pipe = PipePC.returned) →
      exec st mvs = some st' →
      (∀ order, Move.takeMsg order ∉ mvs) ∧
        ∃ made, st'.sends = st.sends ++ made ∧ made ++ pendingSends st' = pendingSends st := by
  induction mvs with
  | nil =>
    intro st st' _ h
    simp only [exec, Option.some.injEq] at h
    subst h
    exact ⟨by simp, [], by simp⟩
  | cons mv mvs ih =>
    intro st st' hp h
    simp only [exec] at h
    cases hs : step st mv with
    | none => simp [hs] at h
    | some st1 =>
      simp only [hs] at h
      obtain ⟨a1, a2, made1, a3, a4⟩ := step_of_exhausted st st1 mv hp hs
      obtain ⟨b1, made2, b2, b3⟩ := ih st1 st' a1 h
      refine ⟨?_, made1 ++ made2, ?_, ?_⟩
      · intro order hc
        rcases List.mem_cons.mp hc with hc | hc
        · exact a2 order hc.symm
        · exact b1 order hc
      · rw [b2, a3, List.append_assoc]
      · rw [List.append_assoc, b3, a4]

theorem step_receive_false (st st' : System Sender Msg) (m : Msg)
    (h : step st (Move.receive m false) = some st') : st'.pipe = PipePC.closing := by
  obtain ⟨pipe, run, ls, quitClosed, blocked, completed, sends⟩ := st
  cases pipe <;> simp only [step, Option.some.injEq, reduceCtorEq] at h
  subst h
  simp

end ExhaustedLemmas


section KeyedLemmas
variable {Sender Msg : Type} [DecidableEq Sender]

theorem toFinset_erase_of_nodup (l : List Sender) (s : Sender) (h : l.Nodup) :
    (l.erase s).toFinset = l.toFinset.erase s := by
  ext t
  simp only [List.mem_toFinset, Finset.mem_erase, h.mem_erase_iff]

/-- On senders that can be hashed and are equal to themselves, the loop on the entries of the
map and the loop on the key set do the same: no panic, the same keys, the same calls of
`Send`, the same `return`. -/
theorem runKeyed_of_lawful (k : KeyKind Sender)
    (hk : ∀ s, k.hashable s = true ∧ k.selfEqual s = true) (o : RangeOrder Sender)
    (es : List (Event Sender Msg)) :
    ∀ (kst : KeyedState Sender Msg) (st : LoopState Sender Msg),
      kst.ls.Nodup → kst.ls.toFinset = st.ls → kst.sends = st.sends → kst.ranges = st.ranges →
      (runKeyed k (EntryOrder.ofRangeOrder o) kst es).1.ls.Nodup ∧
        (runKeyed k (EntryOrder.ofRangeOrder o) kst es).1.ls.toFinset = (runFrom o st es).1.ls ∧
        (runKeyed k (EntryOrder.ofRangeOrder o) kst es).1.sends = (runFrom o st es).1.sends ∧
        (runKeyed k (EntryOrder.ofRangeOrder o) kst es).1.ranges = (runFrom o st es).1.ranges ∧
        (runKeyed k (EntryOrder.ofRangeOrder o) kst es).2 =
          if (runFrom o st es).2 = true then LoopStatus.returned else LoopStatus.running := by
  induction es with
  | nil =>
    intro kst st h1 h2 h3 h4
    simp [runKeyed, runFrom, h1, h2, h3, h4]
  | cons ev es ih =>
    intro kst st h1 h2 h3 h4
    cases ev with
    | register s =>
      simp only [runKeyed, selectKeyed, mapassign, (hk s).1, (hk s).2, if_true, true_and,
        runFrom, select]
      by_cases hs : s ∈ kst.ls
      · simp only [if_pos hs]
        apply ih
        · exact h1
        · simp only
          rw [← h2, Finset.insert_eq_of_mem (List.mem_toFinset.mpr hs)]
        · exact h3
        · exact h4
      · simp only [if_neg hs]
        apply ih
        · exact List.Nodup.append h1 (List.nodup_singleton s) (by simpa using hs)
        · simp only
          rw [← h2]
          ext t
          simp [or_comm]
        · exact h3
        · exact h4
    | unregister s =>
      simp only [runKeyed, selectKeyed, mapdelete, (hk s).1, (hk s).2, if_true, runFrom, select]
      apply ih
      · exact h1.erase s
      · simp only
        rw [← h2, toFinset_erase_of_nodup _ _ h1]
      · exact h3
      · exact h4
    | msgs m =>
      simp only [runKeyed, selectKeyed, runFrom, select]
      apply ih
      · exact h1
      · exact h2
      · simp only [EntryOrder.ofRangeOrder, if_pos h1, rangeSend, h2, h3, h4]
      · simp only [h4]
    | quit =>
      simp [runKeyed, selectKeyed, runFrom, select, h1, h2, h3, h4]

theorem EntryOrder.order_singleton {Sender : Type} (e : EntryOrder Sender) (n : Nat)
    (a : Sender) : e.order n [a] = [a] :=
  List.perm_singleton.mp (e.isPerm n [a])

theorem EntryOrder.order_pair_same {Sender : Type} (e : EntryOrder Sender) (n : Nat)
    (a : Sender) : e.order n [a, a] = [a, a] := by
  have h : (e.order n [a, a]).Perm (List.replicate 2 a) := e.isPerm n [a, a]
  exact List.perm_replicate.mp h

end KeyedLemmas


section Claims
variable {Sender Msg : Type} [DecidableEq Sender]

/-- C1 (order preservation).  Let the first `n` results of the `Receiver` have `ok = true` and
let `s` be in the map `ls` when the control loop takes the first of them.  Then `pipe` sends
exactly these `n` values on `msgs`, in order, and the control loop, taking them with no other
event in between, stays in its loop and makes on `s` exactly the calls `Send(v1)`, ...,
`Send(vn)`, in that order. -/
theorem order_preservation (o : RangeOrder Sender) (input : Receiver Msg) (n : Nat)
    (st : LoopState Sender Msg) (s : Sender)
    (hok : ∀ k, k < n → (input k).2 = true) (hs : s ∈ st.ls) :
    forwarded (pipe input n).actions = (List.range n).map (fun k => (input k).1) ∧
      (runFrom o st ((forwarded (pipe input n).actions).map Event.msgs)).2 = false ∧
      ∃ made,
        (runFrom o st ((forwarded (pipe input n).actions).map Event.msgs)).1.sends =
          st.sends ++ made ∧
        sentTo s made = (List.range n).map (fun k => (input k).1) := by
  have hf : forwarded (pipe input n).actions = (List.range n).map (fun k => (input k).1) := by
    have := forwarded_pipeFrom input n 0 (fun i hi => by simpa using hok i hi)
    simpa [pipe] using this
  obtain ⟨h1, _, h3⟩ := runFrom_msgs o s ((List.range n).map (fun k => (input k).1)) st
  obtain ⟨made, hm⟩ :=
    runFrom_sends_extend o (((List.range n).map (fun k => (input k).1)).map Event.msgs) st
  rw [hf]
  refine ⟨rfl, h1, made, hm, ?_⟩
  rw [hm, sentTo_append, if_pos hs] at h3
  exact List.append_cancel_left h3

/-- C2 (fan-out completeness).  When the control loop takes the message `m` with the key set
`ls`, the range loop visits every key of `ls` once and no other sender, so it makes
`card ls` calls of `Send`, all with the value `m`; these calls stand together in the trace,
after every earlier call and before the calls of every later event, and the map is the same
afterwards.  While the range loop is under way the control loop is not at its `select`: it
accepts no `Register` or `Unregister`, takes no message and does not take `quit`. -/
theorem fanout_complete (o : RangeOrder Sender) (st : LoopState Sender Msg) (m : Msg)
    (es : List (Event Sender Msg)) (sys : System Sender Msg) (rest order : List Sender)
    (c : Call Sender) :
    IsRangeOf st.ls ((rangeSend o st m).map Prod.fst) ∧
      (rangeSend o st m).map Prod.snd = List.replicate st.ls.card m ∧
      (rangeSend o st m).length = st.ls.card ∧
      (∀ s, ((rangeSend o st m).map Prod.fst).count s = if s ∈ st.ls then 1 else 0) ∧
      (runFrom o st [Event.msgs m]).1.ls = st.ls ∧
      (runFrom o st [Event.msgs m]).1.sends = st.sends ++ rangeSend o st m ∧
      runFrom o st (Event.msgs m :: es) = runFrom o (runFrom o st [Event.msgs m]).1 es ∧
      (∃ later, (runFrom o st (Event.msgs m :: es)).1.sends =
        st.sends ++ rangeSend o st m ++ later) ∧
      step { sys with run := RunPC.ranging m rest } (Move.accept c) = none ∧
      step { sys with run := RunPC.ranging m rest } (Move.takeMsg order) = none ∧
      step { sys with run := RunPC.ranging m rest } Move.takeQuit = none := by
  have hr := o.isRange st.ranges st.ls
  have hfst : (rangeSend o st m).map Prod.fst = o.order st.ranges st.ls := by
    simp [rangeSend, Function.comp_def]
  have hlen : (o.order st.ranges st.ls).length = st.ls.card := by
    rw [← List.toFinset_card_of_nodup hr.1]
    congr 1
    ext s
    simp [hr.2 s]
  refine ⟨by rw [hfst]; exact hr, ?_, by simp [rangeSend, hlen], ?_, by simp [runFrom, select],
    by simp [runFrom, select], by simp [runFrom, select], ?_, by simp [step], by simp [step],
    by simp [step]⟩
  · simp only [rangeSend, List.map_map, Function.comp_def]
    rw [← hlen]
    exact List.map_const' _ m
  · intro s
    rw [hfst]
    by_cases hs : s ∈ st.ls
    · rw [if_pos hs]
      exact List.count_eq_one_of_mem hr.1 ((hr.2 s).mpr hs)
    · rw [if_neg hs]
      exact List.count_eq_zero_of_not_mem (fun h => hs ((hr.2 s).mp h))
  · obtain ⟨later, h⟩ := runFrom_sends_extend o es (runFrom o st [Event.msgs m]).1
    refine ⟨later, ?_⟩
    simpa [runFrom, select] using h

/-- For senders that can be hashed and are equal to themselves (the loop `runFrom`, which
`runKeyed_of_lawful` ties to the loop on arbitrary senders).  Let the control loop, started by
`New`, take the events `pre` (none of them `quit`) and then the message `m`.  The calls of
`Send` made for `m` are those of one range loop over the map as `pre` left it.  If the last
membership event for `s` in `pre` is `unregister s`, that loop makes no call on `s`; if it is
`register s`, that loop calls `s.Send(m)`. -/
theorem lawful_membership_atomic (o : RangeOrder Sender) (pre : List (Event Sender Msg))
    (m : Msg)
    (s : Sender) (hq : Event.quit ∉ pre) :
    (run o (pre ++ [Event.msgs m])).1.sends =
        (run o pre).1.sends ++ rangeSend o (run o pre).1 m ∧
      (lastMembership s pre = some false →
        s ∉ (rangeSend o (run o pre).1 m).map Prod.fst) ∧
      (lastMembership s pre = some true → (s, m) ∈ rangeSend o (run o pre).1 m) := by
  have hrun := runFrom_running_of_no_quit o pre (start Sender Msg) hq
  have hmem := mem_ls_runFrom o s pre (start Sender Msg) hq
  have hr := o.isRange (run o pre).1.ranges (run o pre).1.ls
  have hfst : (rangeSend o (run o pre).1 m).map Prod.fst =
      o.order (run o pre).1.ranges (run o pre).1.ls := by
    simp [rangeSend, Function.comp_def]
  refine ⟨?_, ?_, ?_⟩
  · unfold run
    rw [runFrom_append_of_running o pre _ _ hrun]
    simp [runFrom, select]
  · intro hl hs
    rw [hfst, hr.2 s] at hs
    have := hmem.mp hs
    simp [hl] at this
  · intro hl
    have hs : s ∈ (run o pre).1.ls := hmem.mpr (Or.inl hl)
    simp only [rangeSend, List.mem_map]
    exact ⟨s, (hr.2 s).mpr hs, rfl⟩

end Claims


section Claims
variable {Sender Msg : Type} [DecidableEq Sender]

/-- C4, as stated, fails.  Senders `1` and `2` are registered and the `Receiver` gives the value
`7`; the control loop takes `7` and calls `Send(7)` on sender `1`; meanwhile `pipe` calls
`Receive` again, which returns `ok = false`; after that the control loop goes on with its range
loop and calls `Send(7)` on sender `2`. -/
theorem send_after_exhaustion :
    (exec (New Nat Nat)
        [Move.call (Call.Register 1), Move.accept (Call.Register 1),
          Move.call (Call.Register 2), Move.accept (Call.Register 2),
          Move.receive 7 true, Move.takeMsg [1, 2], Move.send,
          Move.receive 0 false]).map (fun st => (st.pipe, st.sends)) =
        some (PipePC.closing, [(1, 7)]) ∧
      (exec (New Nat Nat)
        [Move.call (Call.Register 1), Move.accept (Call.Register 1),
          Move.call (Call.Register 2), Move.accept (Call.Register 2),
          Move.receive 7 true, Move.takeMsg [1, 2], Move.send,
          Move.receive 0 false, Move.send]).map (fun st => (st.pipe, st.sends)) =
        some (PipePC.closing, [(1, 7), (2, 7)]) := by
  decide

/-- C4, amended.  In every execution, once `Receive` has returned `ok = false` the control loop
takes no further message from `msgs`, and the calls of `Send` made from that point on are
calls the range loop under way at that point had still to make, in the order of that loop
(none when the control loop was not in a range loop). -/
theorem no_new_delivery_after_exhaustion (pre post : List (Move Sender Msg)) (m : Msg)
    (st1 st2 : System Sender Msg)
    (h1 : exec (New Sender Msg) (pre ++ [Move.receive m false]) = some st1)
    (h2 : exec st1 post = some st2) :
    exec (New Sender Msg) (pre ++ Move.receive m false :: post) = some st2 ∧
      (∀ order, Move.takeMsg order ∉ post) ∧
      ∃ made, st2.sends = st1.sends ++ made ∧ made ++ pendingSends st2 = pendingSends st1 := by
  have hp : st1.pipe = PipePC.closing := by
    obtain ⟨st0, _, h0⟩ := (exec_append pre [Move.receive m false] _ _).mp h1
    simp only [exec] at h0
    cases hs : step st0 (Move.receive m false) with
    | none => simp [hs] at h0
    | some st' =>
      simp only [hs, Option.some.injEq] at h0
      subst h0
      exact step_receive_false st0 st' m hs
  refine ⟨?_, exec_of_exhausted post st1 st2 (Or.inl hp) h2⟩
  have : pre ++ Move.receive m false :: post = (pre ++ [Move.receive m false]) ++ post := by
    simp
  rw [this]
  exact (exec_append _ _ _ _).mpr ⟨st1, h1, h2⟩

/-- For senders that can be hashed and are equal to themselves.  Taking `register s` twice
leaves the control loop in the same state as taking it once, with `s` in the map; a range loop
run afterwards visits `s` once, and for the messages `vs` taken after the two registrations
the calls made on `s` are exactly `Send(v)` for each `v` of `vs`, once each and in order. -/
theorem lawful_register_idempotent (o : RangeOrder Sender) (st : LoopState Sender Msg)
    (s : Sender)
    (vs : List Msg) :
    runFrom o st [Event.register s, Event.register s] = runFrom o st [Event.register s] ∧
      (runFrom o st [Event.register s, Event.register s]).1.ls = insert s st.ls ∧
      (∀ m, ((rangeSend o (runFrom o st [Event.register s, Event.register s]).1 m).map
        Prod.fst).count s = 1) ∧
      ∃ made,
        (runFrom o st (Event.register s :: Event.register s :: vs.map Event.msgs)).1.sends =
          st.sends ++ made ∧
        sentTo s made = vs := by
  refine ⟨by simp [runFrom, select], by simp [runFrom, select], ?_, ?_⟩
  · intro m
    have hr := o.isRange st.ranges (insert s (insert s st.ls))
    simp only [runFrom, select, rangeSend, List.map_map, Function.comp_def, List.map_id']
    exact List.count_eq_one_of_mem hr.1 ((hr.2 s).mpr (by simp))
  · obtain ⟨_, _, h3⟩ := runFrom_msgs o s vs { st with ls := insert s (insert s st.ls) }
    obtain ⟨made, hm⟩ :=
      runFrom_sends_extend o (vs.map Event.msgs) { st with ls := insert s (insert s st.ls) }
    refine ⟨made, by simpa [runFrom, select] using hm, ?_⟩
    rw [hm, sentTo_append] at h3
    simp only [Finset.mem_insert, true_or, if_true] at h3
    exact List.append_cancel_left h3

/-- For senders that can be hashed and are equal to themselves.  When `s` is not in the map,
taking `unregister s` leaves the control loop in its loop and in the very same state (same
map, no call of `Send`), so whatever it takes next has the effect it would have had without
that event. -/
theorem lawful_unregister_absent (o : RangeOrder Sender) (st : LoopState Sender Msg)
    (s : Sender)
    (es : List (Event Sender Msg)) (hs : s ∉ st.ls) :
    runFrom o st [Event.unregister s] = (st, false) ∧
      runFrom o st (Event.unregister s :: es) = runFrom o st es := by
  have h : ({ st with ls := st.ls.erase s } : LoopState Sender Msg) = st := by
    cases st
    simp only [LoopState.mk.injEq, and_true]
    exact Finset.erase_eq_of_not_mem hs
  simp [runFrom, select, h]

/-- C7 (the relay stops at the first exhaustion).  On a `Receiver` whose first `n` results
have `ok = true` and whose next result has `ok = false`, `pipe` returns as soon as it is given
more than `n` rounds, and what it has done is: receive and forward each of the `n` values in
turn, receive the result with `ok = false`, close `quit`.  So it forwards exactly the `n`
values in order, closes `quit` once, as its last action, and calls `Receive` `n + 1` times. -/
theorem relay_stops_at_exhaustion (input : Receiver Msg) (n fuel : Nat)
    (hok : ∀ k, k < n → (input k).2 = true) (hend : (input n).2 = false) (hf : n < fuel) :
    (pipe input fuel).returned = true ∧
      (pipe input fuel).actions =
        ((List.range n).flatMap fun k =>
          [PipeAct.receive (input k).1 true, PipeAct.forward (input k).1]) ++
        [PipeAct.receive (input n).1 false, PipeAct.closeQuit] ∧
      forwarded (pipe input fuel).actions = (List.range n).map (fun k => (input k).1) ∧
      quitSignals (pipe input fuel).actions = 1 ∧
      receiveCalls (pipe input fuel).actions = n + 1 := by
  have h := pipeFrom_exhausted input n fuel 0 (fun i hi => by simpa using hok i hi)
    (by simpa using hend) hf
  have hp : pipe input fuel = ⟨relayTrace input 0 n, true⟩ := h
  rw [hp]
  refine ⟨rfl, by simp [relayTrace], ?_, quitSignals_relayTrace input n 0,
    receiveCalls_relayTrace input n 0⟩
  simpa using forwarded_relayTrace input n 0

/-- C8 (calls after shutdown never complete).  Once `run` has returned, whatever moves the
system makes, `run` stays returned, no call of `Register` or `Unregister` is accepted, none
returns, the map is left as it was, and every such call made from then on is added to the
blocked calls, where it stays. -/
theorem calls_block_after_shutdown (st st' : System Sender Msg) (mvs : List (Move Sender Msg))
    (hr : st.run = RunPC.returned) (h : exec st mvs = some st') :
    st'.run = RunPC.returned ∧ (∀ c, Move.accept c ∉ mvs) ∧ st'.completed = st.completed ∧
      st'.ls = st.ls ∧ st'.blocked = st.blocked ++ callsMade mvs := by
  obtain ⟨a1, a2, a3, _, a5, a6, _⟩ := exec_of_returned mvs st st' hr h
  exact ⟨a1, a6, a3, a2, a5⟩

/-- For senders that can be hashed and are equal to themselves.  After the control loop,
started by `New` with an empty map, has taken the events `es` (none of them `quit`), `s` is in
the map exactly when `es` has a membership event for `s` and the last one is `register s`;
taking a message leaves the map as it is. -/
theorem lawful_subscriber_invariant (o : RangeOrder Sender) (es : List (Event Sender Msg))
    (s : Sender)
    (hq : Event.quit ∉ es) :
    (s ∈ (run o es).1.ls ↔ lastMembership s es = some true) ∧
      ∀ m, (run o (es ++ [Event.msgs m])).1.ls = (run o es).1.ls := by
  have hrun := runFrom_running_of_no_quit o es (start Sender Msg) hq
  refine ⟨?_, ?_⟩
  · have := mem_ls_runFrom o s es (start Sender Msg) hq
    simpa [run, start] using this
  · intro m
    unfold run
    rw [runFrom_append_of_running o es _ _ hrun]
    simp [runFrom, select]

/-- C10 (shutdown is terminal).  Whatever the control loop has taken before, once it takes
`quit` it has returned, and the events placed after that `quit` change nothing: the map, the
calls of `Send` made and the fact of having returned are the same as if nothing followed. -/
theorem shutdown_terminal (o : RangeOrder Sender) (st : LoopState Sender Msg)
    (pre post : List (Event Sender Msg)) :
    (runFrom o st (pre ++ [Event.quit])).2 = true ∧
      runFrom o st (pre ++ Event.quit :: post) = runFrom o st (pre ++ [Event.quit]) := by
  have h1 : (runFrom o st (pre ++ [Event.quit])).2 = true := by
    cases hb : (runFrom o st pre).2 with
    | false =>
      rw [runFrom_append_of_running o pre _ st hb]
      simp [runFrom, select]
    | true => rw [runFrom_append_of_returned o pre _ st hb]; exact hb
  refine ⟨h1, ?_⟩
  have : pre ++ Event.quit :: post = (pre ++ [Event.quit]) ++ post := by simp
  rw [this]
  exact runFrom_append_of_returned o _ post st h1

end Claims


/-- C3, on the code.  A sender holding NaN is registered and then unregistered, so its last
membership event is `unregister`; `delete(ls, s)` finds no key `==` to it, its entry stays,
and the delivery of the message `6` calls `Send(6)` on it, whatever the order of the range
loop.  A func-typed sender whose last membership event is `register` gets no call: the
statement `ls[s] = struct{}{}` panics and the control loop is dead. -/
theorem unregistered_nan_sender_still_served (e : EntryOrder DemoSender) :
    lastMembership DemoSender.nan
        [(Event.register DemoSender.nan : Event DemoSender Nat),
          Event.unregister DemoSender.nan] = some false ∧
      runKeyed demoKeys e (startKeyed DemoSender Nat)
        [Event.register DemoSender.nan, Event.unregister DemoSender.nan, Event.msgs 6] =
        (⟨[DemoSender.nan], [(DemoSender.nan, 6)], 1⟩, LoopStatus.running) ∧
      lastMembership DemoSender.fn
        [(Event.register DemoSender.fn : Event DemoSender Nat)] = some true ∧
      runKeyed demoKeys e (startKeyed DemoSender Nat)
        [Event.register DemoSender.fn, Event.msgs 6] =
        (⟨[], [], 0⟩, LoopStatus.panicked) := by
  refine ⟨by decide, ?_, by decide, ?_⟩
  · simp [runKeyed, selectKeyed, mapassign, mapdelete, demoKeys, startKeyed,
      EntryOrder.order_singleton]
  · simp [runKeyed, selectKeyed, mapassign, demoKeys, startKeyed]

/-- C5, on the code.  A sender holding NaN is registered twice: the second
`ls[s] = struct{}{}` finds no key `==` to it and adds a second entry, so the map after two
registrations is not the map after one, and the delivery of the message `5` calls `Send(5)`
on that sender twice, whatever the order of the range loop.  A func-typed sender registered
twice gets no call at all: the first `ls[s] = struct{}{}` panics. -/
theorem nan_sender_registered_twice_served_twice (e : EntryOrder DemoSender) :
    runKeyed demoKeys e (startKeyed DemoSender Nat) [Event.register DemoSender.nan] =
        (⟨[DemoSender.nan], [], 0⟩, LoopStatus.running) ∧
      runKeyed demoKeys e (startKeyed DemoSender Nat)
        [Event.register DemoSender.nan, Event.register DemoSender.nan] =
        (⟨[DemoSender.nan, DemoSender.nan], [], 0⟩, LoopStatus.running) ∧
      runKeyed demoKeys e (startKeyed DemoSender Nat)
        [Event.register DemoSender.nan, Event.register DemoSender.nan, Event.msgs 5] =
        (⟨[DemoSender.nan, DemoSender.nan], [(DemoSender.nan, 5), (DemoSender.nan, 5)], 1⟩,
          LoopStatus.running) ∧
      runKeyed demoKeys e (startKeyed DemoSender Nat)
        [Event.register DemoSender.fn, Event.register DemoSender.fn, Event.msgs 5] =
        (⟨[], [], 0⟩, LoopStatus.panicked) := by
  refine ⟨?_, ?_, ?_, ?_⟩
  · simp [runKeyed, selectKeyed, mapassign, demoKeys, startKeyed]
  · simp [runKeyed, selectKeyed, mapassign, demoKeys, startKeyed]
  · simp [runKeyed, selectKeyed, mapassign, demoKeys, startKeyed, EntryOrder.order_pair_same]
  · simp [runKeyed, selectKeyed, mapassign, demoKeys, startKeyed]

/-- C6, on the code.  The sender `ptr 1` is registered and a func-typed sender, which was
never registered, is unregistered: `delete(ls, s)` panics, the control loop is dead, and the
message `9` that follows reaches nobody, `ptr 1` included.  The same call panics on the empty
map of a new `Broadcaster`. -/
theorem unregister_unhashable_sender_panics (e : EntryOrder DemoSender) :
    DemoSender.fn ∉ [DemoSender.ptr 1] ∧
      runKeyed demoKeys e (⟨[DemoSender.ptr 1], [], 0⟩ : KeyedState DemoSender Nat)
        [Event.unregister DemoSender.fn] =
        (⟨[DemoSender.ptr 1], [], 0⟩, LoopStatus.panicked) ∧
      runKeyed demoKeys e (startKeyed DemoSender Nat)
        [Event.register (DemoSender.ptr 1), Event.unregister DemoSender.fn, Event.msgs 9] =
        (⟨[DemoSender.ptr 1], [], 0⟩, LoopStatus.panicked) ∧
      runKeyed demoKeys e (startKeyed DemoSender Nat) [Event.unregister DemoSender.fn] =
        (⟨[], [], 0⟩, LoopStatus.panicked) := by
  refine ⟨by decide, ?_, ?_, ?_⟩
  · simp [runKeyed, selectKeyed, mapdelete, demoKeys]
  · simp [runKeyed, selectKeyed, mapassign, mapdelete, demoKeys, startKeyed]
  · simp [runKeyed, selectKeyed, mapdelete, demoKeys, startKeyed]

/-- C9, on the code.  After `register s`, `unregister s` for a sender holding NaN the control
loop is in its loop and `s` is still a key of the map, although the last membership event
for `s` is `unregister s`.  After `register s` for a func-typed sender the map is empty and
the control loop is dead, although the last membership event for `s` is `register s`. -/
theorem nan_sender_stays_in_map (e : EntryOrder DemoSender) :
    lastMembership DemoSender.nan
        [(Event.register DemoSender.nan : Event DemoSender Nat),
          Event.unregister DemoSender.nan] = some false ∧
      (runKeyed demoKeys e (startKeyed DemoSender Nat)
        [Event.register DemoSender.nan, Event.unregister DemoSender.nan]).2 =
        LoopStatus.running ∧
      DemoSender.nan ∈ (runKeyed demoKeys e (startKeyed DemoSender Nat)
        [Event.register DemoSender.nan, Event.unregister DemoSender.nan]).1.ls ∧
      lastMembership DemoSender.fn
        [(Event.register DemoSender.fn : Event DemoSender Nat)] = some true ∧
      (runKeyed demoKeys e (startKeyed DemoSender Nat) [Event.register DemoSender.fn]).2 =
        LoopStatus.panicked ∧
      DemoSender.fn ∉ (runKeyed demoKeys e (startKeyed DemoSender Nat)
        [Event.register DemoSender.fn]).1.ls := by
  refine ⟨by decide, ?_, ?_, by decide, ?_, ?_⟩ <;>
    simp [runKeyed, selectKeyed, mapassign, mapdelete, demoKeys, startKeyed]

/-- Witness for C1: the receiver `twoValues` and sender `1` of `twoSenders`. -/
theorem order_preservation_witness :
    (∀ k, k < 2 → (twoValues k).2 = true) ∧ 1 ∈ twoSenders.ls ∧
      ∃ made,
        (runFrom sortedOrder twoSenders
            ((forwarded (pipe twoValues 2).actions).map Event.msgs)).1.sends =
          twoSenders.sends ++ made ∧
        sentTo 1 made = (List.range 2).map (fun k => (twoValues k).1) :=
  ⟨by decide, by decide,
    (order_preservation sortedOrder twoValues 2 twoSenders 1 (by decide) (by decide)).2.2⟩

/-- Witness for the amended C4: the execution that reaches `midDelivery` and goes on to
`afterDelivery`. -/
theorem no_new_delivery_after_exhaustion_witness :
    exec (New Nat Nat)
        ([Move.call (Call.Register 1), Move.accept (Call.Register 1),
          Move.call (Call.Register 2), Move.accept (Call.Register 2),
          Move.receive 7 true, Move.takeMsg [1, 2], Move.send] ++
          [Move.receive 0 false]) = some midDelivery ∧
      exec midDelivery [Move.send, Move.endRange, Move.closeQuit, Move.takeQuit] =
        some afterDelivery ∧
      (∀ order, Move.takeMsg order ∉
        [(Move.send : Move Nat Nat), Move.endRange, Move.closeQuit, Move.takeQuit]) ∧
      ∃ made, afterDelivery.sends = midDelivery.sends ++ made ∧
        made ++ pendingSends afterDelivery = pendingSends midDelivery :=
  ⟨by decide, by decide,
    (no_new_delivery_after_exhaustion
      [Move.call (Call.Register 1), Move.accept (Call.Register 1),
        Move.call (Call.Register 2), Move.accept (Call.Register 2),
        Move.receive 7 true, Move.takeMsg [1, 2], Move.send]
      [Move.send, Move.endRange, Move.closeQuit, Move.takeQuit] 0 midDelivery afterDelivery
      (by decide) (by decide)).2⟩

/-- Witness for C7: the receiver `twoValues`, with five rounds. -/
theorem relay_stops_at_exhaustion_witness :
    (∀ k, k < 2 → (twoValues k).2 = true) ∧ (twoValues 2).2 = false ∧ 2 < 5 ∧
      (pipe twoValues 5).returned = true ∧
      forwarded (pipe twoValues 5).actions = (List.range 2).map (fun k => (twoValues k).1) ∧
      quitSignals (pipe twoValues 5).actions = 1 ∧
      receiveCalls (pipe twoValues 5).actions = 2 + 1 :=
  ⟨by decide, by decide, by decide,
    (relay_stops_at_exhaustion twoValues 2 5 (by decide) (by decide) (by decide)).1,
    (relay_stops_at_exhaustion twoValues 2 5 (by decide) (by decide) (by decide)).2.2⟩

/-- Witness for C8: after `shutDown`, two calls are made and `pipe` has nothing left to do. -/
theorem calls_block_after_shutdown_witness :
    exec (New Nat Nat) [Move.receive 0 false, Move.closeQuit, Move.takeQuit] = some shutDown ∧
      shutDown.run = RunPC.returned ∧
      exec shutDown [Move.call (Call.Register 2), Move.call (Call.Unregister 1)] =
        some { shutDown with blocked := [Call.Register 2, Call.Unregister 1] } ∧
      ({ shutDown with blocked := [Call.Register 2, Call.Unregister 1] } :
          System Nat Nat).completed = shutDown.completed ∧
      ({ shutDown with blocked := [Call.Register 2, Call.Unregister 1] } :
          System Nat Nat).blocked =
        shutDown.blocked ++
          callsMade [(Move.call (Call.Register 2) : Move Nat Nat),
            Move.call (Call.Unregister 1)] :=
  ⟨by decide, by decide, by decide,
    (calls_block_after_shutdown shutDown
      { shutDown with blocked := [Call.Register 2, Call.Unregister 1] }
      [Move.call (Call.Register 2), Move.call (Call.Unregister 1)]
      (by decide) (by decide)).2.2.1,
    (calls_block_after_shutdown shutDown
      { shutDown with blocked := [Call.Register 2, Call.Unregister 1] }
      [Move.call (Call.Register 2), Move.call (Call.Unregister 1)]
      (by decide) (by decide)).2.2.2.2⟩

end Broadcaster
